import Mathlib

/-!
Verification of the geometric layout engine of the svg_gen repository
(src/geometry.py), shallowly embedded over the real numbers.

Python floats are modelled as real numbers; Python's truthiness test
`if radius:` on an optional float is modelled by matching the `Option ℝ`
and testing equality with zero.
-/

set_option maxHeartbeats 1000000

noncomputable section

namespace SvgGen

/-! ### Geometric primitives (src/geometry.py, `Position` and `Transformation`) -/

/-- Module-level constant `DEFAULT_DOMAIN_LENGTH = 50`. -/
def DEFAULT_DOMAIN_LENGTH : ℝ := 50

/-- Module-level constant `DEFAULT_BOUND_GAP = 5`. -/
def DEFAULT_BOUND_GAP : ℝ := 5

/-- Module-level constant `DEFAULT_SPACING_GAP = 5`. -/
def DEFAULT_SPACING_GAP : ℝ := 5

/-- `Position`: a pair of reals. -/
@[ext]
structure Position where
  x : ℝ
  y : ℝ

/-- `math.atan2(y, x)` (real-number model; there is no negative zero in ℝ). -/
def atan2 (y x : ℝ) : ℝ :=
  if 0 < x then Real.arctan (y / x)
  else if x < 0 then
    (if 0 ≤ y then Real.arctan (y / x) + Real.pi else Real.arctan (y / x) - Real.pi)
  else
    (if 0 < y then Real.pi / 2 else if y < 0 then -(Real.pi / 2) else 0)

namespace Position

/-- `Position.norm`: length of the vector from the origin. -/
def norm (p : Position) : ℝ := Real.sqrt (p.x ^ 2 + p.y ^ 2)

/-- `Position.angle`: `math.atan2(self.y, self.x)`. -/
def angle (p : Position) : ℝ := atan2 p.y p.x

/-- `Position.translate`. -/
def translate (p t : Position) : Position := ⟨p.x + t.x, p.y + t.y⟩

/-- `Position.rotate`: rotation about the origin. -/
def rotate (p : Position) (theta : ℝ) : Position :=
  ⟨p.x * Real.cos theta - p.y * Real.sin theta,
   p.x * Real.sin theta + p.y * Real.cos theta⟩

/-- `Position.__neg__`. -/
def neg (p : Position) : Position := ⟨-p.x, -p.y⟩

end Position

/-- `Transformation`: a 2D rigid transform (translation and rotation). -/
@[ext]
structure Transformation where
  translation : Position
  rotation : ℝ

namespace Transformation

/-- `Transformation()`: the default (identity) transformation. -/
def idT : Transformation := ⟨⟨0, 0⟩, 0⟩

/-- `Transformation.inverse`. -/
def inverse (t : Transformation) : Transformation :=
  ⟨(t.translation.neg).rotate (-t.rotation), -t.rotation⟩

/-- `Transformation.__add__`: combine `a` then `b`. -/
def compose (a b : Transformation) : Transformation :=
  ⟨a.translation.translate (b.translation.rotate a.rotation), a.rotation + b.rotation⟩

end Transformation

/-- C8: For every Transformation T, compose(T, inverse(T)) equals the identity
transformation (translation (0,0), rotation 0), where inverse(T) has translation
rotate(−T.translation, −T.rotation) and rotation −T.rotation, and compose is the
Transformation addition defined by the code. -/
theorem compose_inverse_eq_identity (T : Transformation) :
    Transformation.compose T (Transformation.inverse T) =
      Transformation.mk (Position.mk 0 0) 0 := by
  unfold Transformation.compose Transformation.inverse Position.translate
    Position.rotate Position.neg
  ext
  · simp only [Real.cos_neg, Real.sin_neg]
    linear_combination (-T.translation.x) * Real.sin_sq_add_cos_sq T.rotation
  · simp only [Real.cos_neg, Real.sin_neg]
    linear_combination (-T.translation.y) * Real.sin_sq_add_cos_sq T.rotation
  · ring

/-! ### The geometry tree (src/geometry.py, `Node` subclasses)

The structural content of a geometry-tree node: `Gap` and `Domain` are leaves
(their lengths are the module constants), `Hairpin` holds its inner `Chain`,
`SplitComplex` holds its optional branch chains, and `Chain` holds its ordered
children.  `Hairpin`/`SplitComplex` `pre`/`post` anchor domains are implicit:
they are always freshly created `Domain`s of the default length. -/
inductive STree where
  | gap : STree
  | domain : STree
  | hairpin (inner : STree) : STree
  | split (left : Option STree) (right : Option STree) : STree
  | chain (within : List STree) : STree

/-- `isinstance(node, Domain)`. -/
def isDomainS : STree → Bool
  | .domain => true
  | _ => false

/-- `Node.needs_circle_fix`: true only for `Hairpin` and `SplitComplex`. -/
def needs_circle_fix : STree → Bool
  | .hairpin _ => true
  | .split _ _ => true
  | _ => false

/-- `Node.start_to_end`: `Gap` returns its spacer length, `Domain` its length,
`Hairpin` and `SplitComplex` their bound gap, `Chain` the fixed bound-gap
constant. -/
def start_to_end : STree → ℝ
  | .gap => DEFAULT_SPACING_GAP
  | .domain => DEFAULT_DOMAIN_LENGTH
  | .hairpin _ => DEFAULT_BOUND_GAP
  | .split _ _ => DEFAULT_BOUND_GAP
  | .chain _ => DEFAULT_BOUND_GAP

/-- `Chain.calculate_inner_radius`: circumference over 2π, where the
circumference is the sum of the children's `start_to_end` plus the hidden
gap. -/
def calculate_inner_radius (within : List STree) (hidden_gap : ℝ) : ℝ :=
  ((within.map start_to_end).sum + hidden_gap) / (2 * Real.pi)

/-- The body of the gap-insertion loop in `Chain.layout` (lines 446-449):
after each child `x`, a `Gap` is appended when `check_needs_gap(i)` holds,
i.e. between `x` and its successor `y` when both are not `Domain`, and after
the final child when it is not a `Domain` and `omit_end_gap` is not set. -/
def interGaps (omit_end_gap : Bool) : List STree → List STree
  | [] => []
  | [x] => x :: (if !isDomainS x && !omit_end_gap then [STree.gap] else [])
  | x :: y :: rest =>
      x :: ((if !isDomainS x && !isDomainS y then [STree.gap] else []) ++
            interGaps omit_end_gap (y :: rest))

/-- The gap-insertion pass of `Chain.layout` (lines 443-450): a leading `Gap`
when the first child is not a `Domain` (`check_needs_gap(-1)`), then the loop
over the children. -/
def insertGaps (omit_end_gap : Bool) (l : List STree) : List STree :=
  (match l with
   | [] => []
   | x :: _ => if isDomainS x then [] else [STree.gap]) ++ interGaps omit_end_gap l

/-- The `layout_circular` override in `Chain.layout` (lines 437-438): a single
child that needs the circle fix forces straight-line layout. -/
def circularOverride (within : List STree) (layout_circular : Bool) : Bool :=
  match within with
  | [x] => if needs_circle_fix x then false else layout_circular
  | _ => layout_circular

/-- The child list of a `Chain` after the gap-insertion pass (lines 442-450):
gaps are inserted only when laying out circularly with more than one child. -/
def effectiveWithin (lc : Bool) (omit_end_gap : Bool) (within : List STree) :
    List STree :=
  if lc && decide (1 < within.length) then insertGaps omit_end_gap within else within

/-! #### A termination measure for `layout`

Inserted `Gap` nodes weigh nothing, so gap insertion preserves the measure of a
child list, while every constructor strictly increases it. -/

mutual

def msize : STree → Nat
  | .gap => 0
  | .domain => 1
  | .hairpin inner => 1 + msize inner
  | .split l r => 1 + moptsize l + moptsize r
  | .chain w => 1 + mlistsize w

def moptsize : Option STree → Nat
  | none => 0
  | some t => msize t

def mlistsize : List STree → Nat
  | [] => 0
  | t :: ts => msize t + mlistsize ts

end

theorem mlistsize_append (a b : List STree) :
    mlistsize (a ++ b) = mlistsize a + mlistsize b := by
  induction a with
  | nil => simp [mlistsize]
  | cons x xs ih => simp [mlistsize, ih]; omega

theorem mlistsize_interGaps (omit_end_gap : Bool) (l : List STree) :
    mlistsize (interGaps omit_end_gap l) = mlistsize l := by
  induction l with
  | nil => simp [interGaps]
  | cons x xs ih =>
    cases xs with
    | nil =>
      simp only [interGaps]
      split <;> simp [mlistsize, msize]
    | cons y rest =>
      simp only [interGaps] at ih ⊢
      rw [mlistsize, mlistsize_append, ih]
      split <;> simp [mlistsize, msize]

theorem mlistsize_insertGaps (omit_end_gap : Bool) (l : List STree) :
    mlistsize (insertGaps omit_end_gap l) = mlistsize l := by
  unfold insertGaps
  cases l with
  | nil => simp [interGaps, mlistsize]
  | cons x xs =>
    show mlistsize ((if isDomainS x then [] else [STree.gap]) ++
      interGaps omit_end_gap (x :: xs)) = _
    rw [mlistsize_append, mlistsize_interGaps]
    split <;> simp [mlistsize, msize]

theorem mlistsize_effectiveWithin (lc omit_end_gap : Bool) (within : List STree) :
    mlistsize (effectiveWithin lc omit_end_gap within) = mlistsize within := by
  unfold effectiveWithin
  split
  · exact mlistsize_insertGaps omit_end_gap within
  · rfl

/-! ### The laid-out tree

A geometry-tree node after `layout` has run: every node carries the
`local_transform` its parent assigned (`Transformation()` when no parent has
set it) and its computed `end_transform`; `Gap` and `Domain` additionally
carry `circle_radius` and `circle_theta`. -/

/-- The mutable layout state of a `Gap` or `Domain` node (also used for the
`pre`/`post` anchor domains of `Hairpin` and `SplitComplex`). -/
structure ADom where
  circle_radius : Option ℝ
  circle_theta : Option ℝ
  loc : Transformation
  endT : Transformation

/-- A geometry-tree node with its layout annotations. -/
inductive ATree where
  | gap (g : ADom)
  | domain (d : ADom)
  | hairpin (pre : ADom) (inner : ATree) (post : ADom)
      (loc : Transformation) (endT : Transformation)
  | split (pre : ADom) (left : Option ATree) (right : Option ATree) (post : ADom)
      (loc : Transformation) (endT : Transformation)
  | chain (within : List ATree) (loc : Transformation) (endT : Transformation)

/-- The node's `local_transform`. -/
def locOf : ATree → Transformation
  | .gap g => g.loc
  | .domain d => d.loc
  | .hairpin _ _ _ loc _ => loc
  | .split _ _ _ _ loc _ => loc
  | .chain _ loc _ => loc

/-- The node's `end_transform`. -/
def endOf : ATree → Transformation
  | .gap g => g.endT
  | .domain d => d.endT
  | .hairpin _ _ _ _ endT => endT
  | .split _ _ _ _ _ endT => endT
  | .chain _ _ endT => endT

/-- The node's stored `circle_radius` (`none` for kinds without the field). -/
def crOf : ATree → Option ℝ
  | .gap g => g.circle_radius
  | .domain d => d.circle_radius
  | _ => none

/-- The node's stored `circle_theta` (`none` for kinds without the field). -/
def ctOf : ATree → Option ℝ
  | .gap g => g.circle_theta
  | .domain d => d.circle_theta
  | _ => none

/-- `needs_circle_fix` on a laid-out node. -/
def fixA : ATree → Bool
  | .hairpin _ _ _ _ _ => true
  | .split _ _ _ _ _ _ => true
  | _ => false

/-- Parent assignment of `local_transform` to a child. -/
def setLoc : ATree → Transformation → ATree
  | .gap g, t => .gap { g with loc := t }
  | .domain d, t => .domain { d with loc := t }
  | .hairpin pre inner post _ endT, t => .hairpin pre inner post t endT
  | .split pre l r post _ endT, t => .split pre l r post t endT
  | .chain w _ endT, t => .chain w t endT

/-- The five node kinds, for relating a laid-out node to its source. -/
inductive Kind where
  | gap | domain | hairpin | split | chain
deriving DecidableEq

def kindS : STree → Kind
  | .gap => .gap
  | .domain => .domain
  | .hairpin _ => .hairpin
  | .split _ _ => .split
  | .chain _ => .chain

def kindA : ATree → Kind
  | .gap _ => .gap
  | .domain _ => .domain
  | .hairpin _ _ _ _ _ => .hairpin
  | .split _ _ _ _ _ _ => .split
  | .chain _ _ _ => .chain

/-! ### Layout routines (src/geometry.py, `layout` methods) -/

/-- `calculate_end_on_circle(radius, theta)`. -/
def calculate_end_on_circle (radius theta : ℝ) : Transformation :=
  ⟨⟨radius * Real.sin theta, radius * (1 - Real.cos theta)⟩, theta⟩

/-- The straight-line `end_transform` of a `Gap`/`Domain` of the given length:
translation `(0, -length)`, rotation `-0.5 * pi`. -/
def straightEnd (length : ℝ) : Transformation :=
  ⟨⟨0, -length⟩, -(0.5 * Real.pi)⟩

/-- `Gap.layout` / `Domain.layout` for the given length: store the given
radius; when it is truthy (present and nonzero) compute `circle_theta =
length / radius` and the arc endpoint, otherwise run in a straight line.
The `local_transform` keeps its initial value `Transformation()`. -/
def arcNode (length : ℝ) (circle_radius : Option ℝ) : ADom :=
  match circle_radius with
  | some r =>
      if r = 0 then ⟨some r, none, Transformation.idT, straightEnd length⟩
      else ⟨some r, some (length / r), Transformation.idT,
            calculate_end_on_circle r (length / r)⟩
  | none => ⟨none, none, Transformation.idT, straightEnd length⟩

/-- The `end_transform` of a `Hairpin`/`SplitComplex` (lines 299-304 and
360-365): on a truthy enclosing circle, the inverse chord formula
`theta = 2 * asin(gap / (2 * radius))` with the arc endpoint; otherwise
translation `(gap, 0)`, rotation `0`. -/
def chordEnd (gap : ℝ) (circle_radius : Option ℝ) : Transformation :=
  match circle_radius with
  | some r =>
      if r = 0 then ⟨⟨gap, 0⟩, 0⟩
      else calculate_end_on_circle r (2 * Real.arcsin (gap / (2 * r)))
  | none => ⟨⟨gap, 0⟩, 0⟩

/-- The sequential-placement loop of `Chain.layout` (lines 456-464): walk the
laid-out children with a running transform starting from the given one; each
child's `local_transform` becomes the running transform with its rotation
increased by `angle(end_transform.translation)` when the child needs the
circle fix; the running transform then advances by the child's
`end_transform`.  Returns the placed children and the final running
transform. -/
def place (cur : Transformation) : List ATree → List ATree × Transformation
  | [] => ([], cur)
  | a :: rest =>
      let adj := if fixA a then (endOf a).translation.angle else 0
      let a2 := setLoc a (Transformation.mk cur.translation (cur.rotation + adj))
      let p := place (Transformation.compose cur (endOf a)) rest
      (a2 :: p.1, p.2)

mutual

/-- The `layout` methods of `Gap`, `Domain`, `Hairpin`, `SplitComplex` and
`Chain`.  Arguments mirror `Chain.layout(circle_radius, layout_circular,
hidden_gap, omit_end_gap)`; the other node kinds ignore the keyword
arguments, exactly as their Python counterparts ignore `**kwargs`. -/
def layout : STree → Option ℝ → Bool → ℝ → Bool → ATree
  | .gap, circle_radius, _, _, _ =>
      .gap (arcNode DEFAULT_SPACING_GAP circle_radius)
  | .domain, circle_radius, _, _, _ =>
      .domain (arcNode DEFAULT_DOMAIN_LENGTH circle_radius)
  | .hairpin inner, circle_radius, _, _, _ =>
      -- pre.layout(None); pre.local_transform = identity
      let pre : ADom := arcNode DEFAULT_DOMAIN_LENGTH none
      -- post.layout(None); post.local_transform = ((gap, -post.length), pi)
      let post : ADom :=
        { arcNode DEFAULT_DOMAIN_LENGTH none with
          loc := ⟨⟨DEFAULT_BOUND_GAP, -DEFAULT_DOMAIN_LENGTH⟩, Real.pi⟩ }
      -- inner.layout(None, layout_circular=True)
      let innerA := layout inner none true DEFAULT_BOUND_GAP false
      -- inner_angle_error = pi - angle(inner.end_transform.translation)
      let inner_angle_error := Real.pi - (endOf innerA).translation.angle
      let innerA2 := setLoc innerA
        ⟨⟨0, -DEFAULT_DOMAIN_LENGTH⟩, Real.pi + inner_angle_error⟩
      .hairpin pre innerA2 post Transformation.idT
        (chordEnd DEFAULT_BOUND_GAP circle_radius)
  | .split left right, circle_radius, _, _, _ =>
      let pre : ADom := arcNode DEFAULT_DOMAIN_LENGTH none
      let post : ADom :=
        { arcNode DEFAULT_DOMAIN_LENGTH none with
          loc := ⟨⟨DEFAULT_BOUND_GAP, -DEFAULT_DOMAIN_LENGTH⟩, Real.pi⟩ }
      -- angle_from_forward = 0.25 * pi if both branches exist else 0.0
      let angle_from_forward : ℝ :=
        if left.isSome && right.isSome then 0.25 * Real.pi else 0
      let leftA : Option ATree :=
        match left with
        | none => none
        | some c =>
            some (setLoc (layout c none false DEFAULT_BOUND_GAP false)
              ⟨⟨0, -DEFAULT_DOMAIN_LENGTH⟩, -angle_from_forward⟩)
      let rightA : Option ATree :=
        match right with
        | none => none
        | some c =>
            let a := layout c none false DEFAULT_BOUND_GAP false
            some (setLoc a (Transformation.compose
              ⟨⟨DEFAULT_BOUND_GAP, -DEFAULT_DOMAIN_LENGTH⟩, angle_from_forward⟩
              (Transformation.inverse (endOf a))))
      .split pre leftA rightA post Transformation.idT
        (chordEnd DEFAULT_BOUND_GAP circle_radius)
  | .chain within, _, layout_circular, hidden_gap, omit_end_gap =>
      let lc := circularOverride within layout_circular
      let within2 := effectiveWithin lc omit_end_gap within
      let inner_radius : Option ℝ :=
        if lc then some (calculate_inner_radius within2 hidden_gap) else none
      let laid := layoutList within2 inner_radius
      let p := place Transformation.idT laid
      .chain p.1 Transformation.idT p.2
termination_by t _ _ _ _ => (msize t, 0)
decreasing_by
  all_goals simp_wf
  all_goals simp only [Prod.lex_def]
  all_goals (left; simp [msize, moptsize, mlistsize_effectiveWithin] <;> omega)

/-- The `for node in self.within` iteration of `Chain.layout`: lay each child
out with the chosen radius (children laid this way get the default keyword
arguments `layout_circular=True, hidden_gap=DEFAULT_BOUND_GAP,
omit_end_gap=False`). -/
def layoutList : List STree → Option ℝ → List ATree
  | [], _ => []
  | x :: xs, r => layout x r true DEFAULT_BOUND_GAP false :: layoutList xs r
termination_by l _ => (mlistsize l, l.length + 1)
decreasing_by
  all_goals simp_wf
  all_goals simp only [Prod.lex_def]
  all_goals (simp [mlistsize] <;> omega)

end

/-! ### Properties of parent placement -/

theorem endOf_setLoc (a : ATree) (t : Transformation) : endOf (setLoc a t) = endOf a := by
  cases a <;> rfl

theorem fixA_setLoc (a : ATree) (t : Transformation) : fixA (setLoc a t) = fixA a := by
  cases a <;> rfl

theorem kindA_setLoc (a : ATree) (t : Transformation) : kindA (setLoc a t) = kindA a := by
  cases a <;> rfl

theorem locOf_setLoc (a : ATree) (t : Transformation) : locOf (setLoc a t) = t := by
  cases a <;> rfl

theorem crOf_setLoc (a : ATree) (t : Transformation) : crOf (setLoc a t) = crOf a := by
  cases a <;> rfl

theorem place_map_endOf (cur : Transformation) (l : List ATree) :
    (place cur l).1.map endOf = l.map endOf := by
  induction l generalizing cur with
  | nil => rfl
  | cons a rest ih => simp [place, endOf_setLoc, ih]

theorem place_map_fixA (cur : Transformation) (l : List ATree) :
    (place cur l).1.map fixA = l.map fixA := by
  induction l generalizing cur with
  | nil => rfl
  | cons a rest ih => simp [place, fixA_setLoc, ih]

theorem place_map_kindA (cur : Transformation) (l : List ATree) :
    (place cur l).1.map kindA = l.map kindA := by
  induction l generalizing cur with
  | nil => rfl
  | cons a rest ih => simp [place, kindA_setLoc, ih]

/-- The final running transform is the left fold of the children's end
transforms onto the starting transform. -/
theorem place_snd (cur : Transformation) (l : List ATree) :
    (place cur l).2 = (l.map endOf).foldl Transformation.compose cur := by
  induction l generalizing cur with
  | nil => rfl
  | cons a rest ih => simp [place, ih]

/-- The placed children's local transforms are exactly the prefix compositions
(the running transform before each child), with the rotation additionally
increased by the angle of the child's end translation exactly when the child
needs the circle fix. -/
theorem place_locs (cur : Transformation) (l : List ATree) :
    (place cur l).1.map locOf = List.zipWith
      (fun run k => Transformation.mk run.translation
        (run.rotation + (if fixA k then (endOf k).translation.angle else 0)))
      (((place cur l).1.map endOf).scanl Transformation.compose cur)
      ((place cur l).1) := by
  induction l generalizing cur with
  | nil => rfl
  | cons a rest ih =>
    simp only [place, List.map_cons, endOf_setLoc, List.scanl_cons, List.zipWith_cons_cons]
    refine congrArg₂ _ ?_ (ih _)
    simp only [locOf_setLoc, fixA_setLoc, endOf_setLoc]

/-- C1: For every Chain laid out by Chain.layout, the children are placed
strictly left to right with a running transform that starts at identity: each
child's local_transform equals the running transform, with its rotation
additionally increased by angle(child.end_transform.translation) exactly when
child.needs_circle_fix() is true (and unchanged otherwise); after placing each
child the running transform is composed with that child's end_transform; and
the Chain's own end_transform equals the final running transform (the
left-to-right composition of all children's end_transforms). -/
theorem chain_layout_sequential_placement (within : List STree)
    (circle_radius : Option ℝ) (layout_circular : Bool) (hidden_gap : ℝ)
    (omit_end_gap : Bool) :
    ∃ kids e,
      layout (STree.chain within) circle_radius layout_circular hidden_gap
          omit_end_gap = ATree.chain kids Transformation.idT e ∧
      kids.map locOf = List.zipWith
        (fun run k => Transformation.mk run.translation
          (run.rotation + (if fixA k then (endOf k).translation.angle else 0)))
        ((kids.map endOf).scanl Transformation.compose Transformation.idT) kids ∧
      e = (kids.map endOf).foldl Transformation.compose Transformation.idT := by
  rw [layout]
  refine ⟨_, _, rfl, ?_, ?_⟩
  · exact place_locs _ _
  · rw [place_map_endOf, place_snd]

/-- C2: For every Hairpin whose inner Chain is a well-formed non-empty chain,
calling Hairpin.layout with no enclosing circle radius completes and yields
end_transform with translation (gap, 0) and rotation 0, independent of the
content of the inner chain (the angle correction applied to the inner chain's
local rotation does not affect the Hairpin's own end_transform).  Proved for
every inner tree, which subsumes the well-formed non-empty ones; `layout` is a
total function, so the call always completes. -/
theorem hairpin_end_transform_off_circle (inner : STree) (layout_circular : Bool)
    (hidden_gap : ℝ) (omit_end_gap : Bool) :
    endOf (layout (STree.hairpin inner) none layout_circular hidden_gap omit_end_gap) =
      Transformation.mk (Position.mk DEFAULT_BOUND_GAP 0) 0 := by
  rw [layout]
  simp [endOf, chordEnd]

/-! ### SplitComplex branch placement (C3) -/

/-- The `local_transform` of the left branch chain of a laid-out
SplitComplex. -/
def leftLocOf : ATree → Option Transformation
  | .split _ l _ _ _ _ => l.map locOf
  | _ => none

/-- The `local_transform` of the right branch chain of a laid-out
SplitComplex. -/
def rightLocOf : ATree → Option Transformation
  | .split _ _ r _ _ _ => r.map locOf
  | _ => none

/-- C3 (counterexample): for the SplitComplex with both branches present whose
branches are single-domain chains, the right branch's local_transform rotation
is 3π/4 — not +π/4 and not −π/4 — because the right branch's placement
composes with the inverse of its own end_transform. -/
theorem split_branch_rotation_counterexample :
    (rightLocOf (layout (STree.split (some (STree.chain [STree.domain]))
        (some (STree.chain [STree.domain]))) none true DEFAULT_BOUND_GAP
        false)).map Transformation.rotation = some (3 * Real.pi / 4) ∧
    3 * Real.pi / 4 ≠ Real.pi / 4 ∧ 3 * Real.pi / 4 ≠ -(Real.pi / 4) := by
  refine ⟨?_, ?_, ?_⟩
  · rw [layout]
    simp [layout, layoutList, rightLocOf, locOf_setLoc, circularOverride,
      effectiveWithin, insertGaps, interGaps, isDomainS, needs_circle_fix,
      place, arcNode, straightEnd, endOf, fixA, calculate_inner_radius,
      Transformation.compose, Transformation.inverse, Transformation.idT,
      Position.rotate, Position.translate, Position.neg]
    ring
  · intro h
    have hpi := Real.pi_pos
    nlinarith
  · intro h
    have hpi := Real.pi_pos
    nlinarith

/-- C3 (amended): after SplitComplex.layout, the left branch's local_transform
rotation is exactly −π/4 when both branches are present and exactly 0 when it
is the only branch; the right branch's local_transform rotation is
π/4 (both present) or 0 (right only) MINUS the rotation of the right branch's
own end_transform, because the right branch's placement composes with the
inverse of its own end_transform. -/
theorem split_branch_rotations (left right : Option STree)
    (circle_radius : Option ℝ) (layout_circular : Bool) (hidden_gap : ℝ)
    (omit_end_gap : Bool) :
    (leftLocOf (layout (STree.split left right) circle_radius layout_circular
        hidden_gap omit_end_gap)).map Transformation.rotation =
      left.map (fun _ => -(if right.isSome then Real.pi / 4 else 0)) ∧
    (rightLocOf (layout (STree.split left right) circle_radius layout_circular
        hidden_gap omit_end_gap)).map Transformation.rotation =
      right.map (fun c => (if left.isSome then Real.pi / 4 else 0) -
        (endOf (layout c none false DEFAULT_BOUND_GAP false)).rotation) := by
  cases left with
  | none =>
    cases right with
    | none =>
      rw [layout]
      simp [leftLocOf, rightLocOf, locOf_setLoc, Transformation.compose,
        Transformation.inverse]
    | some rc =>
      rw [layout]
      simp [leftLocOf, rightLocOf, locOf_setLoc, Transformation.compose,
        Transformation.inverse]
  | some lftc =>
    cases right with
    | none =>
      rw [layout]
      simp [leftLocOf, rightLocOf, locOf_setLoc, Transformation.compose,
        Transformation.inverse]
    | some rc =>
      rw [layout]
      simp [leftLocOf, rightLocOf, locOf_setLoc, Transformation.compose,
        Transformation.inverse]
      constructor
      · ring
      · ring

/-! ### Re-running layout (C4)

A second `layout` call recomputes every transform from the tree's structure
and the arguments alone, but the first call may have changed the structure by
inserting `Gap` children.  `erase` recovers the structural content of a
laid-out tree; running `layout` again is `layout` of the erased tree. -/

mutual

/-- The structural content of a laid-out tree (the state `Chain.layout` reads
on a second invocation). -/
def erase : ATree → STree
  | .gap _ => .gap
  | .domain _ => .domain
  | .hairpin _ inner _ _ _ => .hairpin (erase inner)
  | .split _ l r _ _ _ => .split (eraseOpt l) (eraseOpt r)
  | .chain w _ _ => .chain (eraseList w)

def eraseOpt : Option ATree → Option STree
  | none => none
  | some a => some (erase a)

def eraseList : List ATree → List STree
  | [] => []
  | a :: rest => erase a :: eraseList rest

end

/-- The rotation of a left fold of compositions is the starting rotation plus
the sum of the rotations (rotations compose additively). -/
theorem foldl_compose_rotation (init : Transformation) (l : List Transformation) :
    (l.foldl Transformation.compose init).rotation =
      init.rotation + (l.map Transformation.rotation).sum := by
  induction l generalizing init with
  | nil => simp
  | cons a rest ih => simp [ih, Transformation.compose]; ring

/-- The `end_transform` a Chain computes: the fold of its laid-out children's
end transforms, where the children are the post-gap-insertion list laid out
with the chain's computed radius. -/
theorem endOf_layout_chain (within : List STree) (circle_radius : Option ℝ)
    (lc : Bool) (hidden_gap : ℝ) (oe : Bool) :
    endOf (layout (STree.chain within) circle_radius lc hidden_gap oe) =
      ((layoutList (effectiveWithin (circularOverride within lc) oe within)
          (if circularOverride within lc then
            some (calculate_inner_radius
              (effectiveWithin (circularOverride within lc) oe within) hidden_gap)
          else none)).map endOf).foldl Transformation.compose
        Transformation.idT := by
  rw [layout]
  simp only [endOf, place_snd]

/-- C4 (counterexample): layout is not idempotent.  For the chain whose
children are a nested single-domain chain and a domain, the first circular
layout inserts one leading Gap; the second layout inserts two further Gaps
adjacent to it, enlarging the estimated radius, so the end_transform rotation
after the second layout differs from the first (11π/7 + 20π/11 versus
13π/8 + 20π/11). -/
theorem layout_not_idempotent_counterexample :
    endOf (layout (erase (layout
        (STree.chain [STree.chain [STree.domain], STree.domain]) none true 10
        true)) none true 10 true) ≠
      endOf (layout (STree.chain [STree.chain [STree.domain], STree.domain])
        none true 10 true) := by
  have hpi := Real.pi_pos
  -- the inner single-domain chain: laid out on its own circle, radius 55/(2π)
  have hrc : calculate_inner_radius [STree.domain] DEFAULT_BOUND_GAP =
      55 / (2 * Real.pi) := by
    simp [calculate_inner_radius, start_to_end, DEFAULT_DOMAIN_LENGTH,
      DEFAULT_BOUND_GAP]
    ring
  have hrc0 : (55 : ℝ) / (2 * Real.pi) ≠ 0 := by positivity
  have hinner : ∀ ρ : Option ℝ, (endOf (layout (STree.chain [STree.domain]) ρ
      true DEFAULT_BOUND_GAP false)).rotation =
      50 / (55 / (2 * Real.pi)) := by
    intro ρ
    rw [endOf_layout_chain]
    norm_num [circularOverride, needs_circle_fix, effectiveWithin]
    rw [hrc]
    rw [layoutList, layoutList]
    rw [show layout STree.domain (some (55 / (2 * Real.pi))) true
        DEFAULT_BOUND_GAP false = ATree.domain (arcNode DEFAULT_DOMAIN_LENGTH
          (some (55 / (2 * Real.pi)))) from by rw [layout]]
    simp [arcNode, hrc0, endOf, Transformation.idT, Transformation.compose,
      calculate_end_on_circle, DEFAULT_DOMAIN_LENGTH]
  -- first layout: children after gap insertion are [Gap, chain, Domain]
  have hstruct : erase (layout
      (STree.chain [STree.chain [STree.domain], STree.domain]) none true 10
      true) = STree.chain [STree.gap, STree.chain [STree.domain],
        STree.domain] := by
    rw [layout]
    simp [circularOverride, effectiveWithin, insertGaps, interGaps, isDomainS,
      layoutList, layout, place, setLoc, erase, eraseList, needs_circle_fix,
      fixA]
  intro h
  have hrot := congrArg Transformation.rotation h
  rw [hstruct] at hrot
  -- rotation after the first layout: 5/r1 + rot(inner) + 50/r1,  r1 = 70/(2π)
  have hr1 : calculate_inner_radius [STree.gap, STree.chain [STree.domain],
      STree.domain] (10 : ℝ) = 70 / (2 * Real.pi) := by
    simp [calculate_inner_radius, start_to_end, DEFAULT_DOMAIN_LENGTH,
      DEFAULT_BOUND_GAP, DEFAULT_SPACING_GAP]
    ring
  have hr10 : (70 : ℝ) / (2 * Real.pi) ≠ 0 := by positivity
  have honce : (endOf (layout (STree.chain [STree.chain [STree.domain],
      STree.domain]) none true 10 true)).rotation =
      5 / (70 / (2 * Real.pi)) + 50 / (55 / (2 * Real.pi)) +
        50 / (70 / (2 * Real.pi)) := by
    rw [endOf_layout_chain]
    norm_num [circularOverride, effectiveWithin, insertGaps, interGaps,
      isDomainS]
    rw [hr1]
    rw [layoutList, layoutList, layoutList, layoutList]
    rw [show layout STree.gap (some (70 / (2 * Real.pi))) true
        DEFAULT_BOUND_GAP false = ATree.gap (arcNode DEFAULT_SPACING_GAP
          (some (70 / (2 * Real.pi)))) from by rw [layout]]
    rw [show layout STree.domain (some (70 / (2 * Real.pi))) true
        DEFAULT_BOUND_GAP false = ATree.domain (arcNode DEFAULT_DOMAIN_LENGTH
          (some (70 / (2 * Real.pi)))) from by rw [layout]]
    simp only [List.map_cons, List.map_nil]
    rw [foldl_compose_rotation]
    simp only [List.map_cons, List.map_nil, List.sum_cons, List.sum_nil,
      hinner]
    simp [arcNode, hr10, endOf, calculate_end_on_circle, Transformation.idT,
      DEFAULT_SPACING_GAP, DEFAULT_DOMAIN_LENGTH]
    ring
  -- rotation after the second layout: 3·(5/r2) + rot(inner) + 50/r2,
  -- r2 = 80/(2π)
  have hr2 : calculate_inner_radius [STree.gap, STree.gap, STree.gap,
      STree.chain [STree.domain], STree.domain] (10 : ℝ) =
      80 / (2 * Real.pi) := by
    simp [calculate_inner_radius, start_to_end, DEFAULT_DOMAIN_LENGTH,
      DEFAULT_BOUND_GAP, DEFAULT_SPACING_GAP]
    ring
  have hr20 : (80 : ℝ) / (2 * Real.pi) ≠ 0 := by positivity
  have htwice : (endOf (layout (STree.chain [STree.gap,
      STree.chain [STree.domain], STree.domain]) none true 10 true)).rotation =
      5 / (80 / (2 * Real.pi)) + 5 / (80 / (2 * Real.pi)) +
        5 / (80 / (2 * Real.pi)) + 50 / (55 / (2 * Real.pi)) +
        50 / (80 / (2 * Real.pi)) := by
    rw [endOf_layout_chain]
    norm_num [circularOverride, effectiveWithin, insertGaps, interGaps,
      isDomainS]
    rw [hr2]
    rw [layoutList, layoutList, layoutList, layoutList, layoutList,
      layoutList]
    rw [show layout STree.gap (some (80 / (2 * Real.pi))) true
        DEFAULT_BOUND_GAP false = ATree.gap (arcNode DEFAULT_SPACING_GAP
          (some (80 / (2 * Real.pi)))) from by rw [layout]]
    rw [show layout STree.domain (some (80 / (2 * Real.pi))) true
        DEFAULT_BOUND_GAP false = ATree.domain (arcNode DEFAULT_DOMAIN_LENGTH
          (some (80 / (2 * Real.pi)))) from by rw [layout]]
    simp only [List.map_cons, List.map_nil]
    rw [foldl_compose_rotation]
    simp only [List.map_cons, List.map_nil, List.sum_cons, List.sum_nil,
      hinner]
    simp [arcNode, hr20, endOf, calculate_end_on_circle, Transformation.idT,
      DEFAULT_SPACING_GAP, DEFAULT_DOMAIN_LENGTH]
    ring
  rw [honce, htwice] at hrot
  field_simp at hrot
  nlinarith [hrot, Real.pi_ne_zero]

theorem interGaps_all_domains (oe : Bool) (l : List STree)
    (h : ∀ x ∈ l, x = STree.domain) : interGaps oe l = l := by
  induction l with
  | nil => rfl
  | cons x xs ih =>
    have hx := h x (List.mem_cons_self x xs)
    cases xs with
    | nil => simp [interGaps, hx, isDomainS]
    | cons y rest =>
      have hy := h y (List.mem_cons_of_mem x (List.mem_cons_self y rest))
      rw [interGaps, ih (fun z hz => h z (List.mem_cons_of_mem x hz))]
      simp [hx, hy, isDomainS]

theorem insertGaps_all_domains (oe : Bool) (l : List STree)
    (h : ∀ x ∈ l, x = STree.domain) : insertGaps oe l = l := by
  unfold insertGaps
  cases l with
  | nil => rfl
  | cons x xs =>
    have hx := h x (List.mem_cons_self x xs)
    rw [interGaps_all_domains oe _ h]
    simp [hx, isDomainS]

theorem effectiveWithin_all_domains (b oe : Bool) (l : List STree)
    (h : ∀ x ∈ l, x = STree.domain) : effectiveWithin b oe l = l := by
  unfold effectiveWithin
  split
  · exact insertGaps_all_domains oe l h
  · rfl

theorem eraseList_place_layoutList_all_domains (l : List STree) :
    ∀ (r : Option ℝ) (cur : Transformation), (∀ x ∈ l, x = STree.domain) →
      eraseList ((place cur (layoutList l r)).1) = l := by
  induction l with
  | nil =>
    intro r cur _
    rw [layoutList]
    rfl
  | cons x xs ih =>
    intro r cur h
    have hx := h x (List.mem_cons_self x xs)
    subst hx
    rw [layoutList,
      show layout STree.domain r true DEFAULT_BOUND_GAP false =
        ATree.domain (arcNode DEFAULT_DOMAIN_LENGTH r) from by rw [layout]]
    simp only [place, setLoc, eraseList, erase]
    exact congrArg (List.cons STree.domain)
      (ih r _ (fun z hz => h z (List.mem_cons_of_mem _ hz)))

/-- C4 (amended): invoking layout a second time with identical arguments
yields transforms identical to the first whenever the first invocation left
the tree's structure unchanged (inserted no Gap children): re-layout is
layout of the erased structure, and layout is a function of the structure and
the arguments alone.  In particular, a chain whose children are all Domains
is left structurally unchanged by layout, so laying it out twice is
idempotent.  Idempotence does not hold for every tree: see the
counterexample, where the second invocation inserts further Gaps and the end
transform changes. -/
theorem layout_idempotent_of_no_gap_insertion (t : STree)
    (within : List STree) (circle_radius : Option ℝ) (layout_circular : Bool)
    (hidden_gap : ℝ) (omit_end_gap : Bool)
    (h : erase (layout t circle_radius layout_circular hidden_gap
      omit_end_gap) = t)
    (hdom : ∀ x ∈ within, x = STree.domain) :
    layout (erase (layout t circle_radius layout_circular hidden_gap
        omit_end_gap)) circle_radius layout_circular hidden_gap omit_end_gap =
      layout t circle_radius layout_circular hidden_gap omit_end_gap ∧
    erase (layout (STree.chain within) circle_radius layout_circular
        hidden_gap omit_end_gap) = STree.chain within := by
  constructor
  · rw [h]
  · rw [layout]
    simp only [erase]
    rw [effectiveWithin_all_domains _ _ _ hdom]
    exact congrArg STree.chain
      (eraseList_place_layoutList_all_domains within _ _ hdom)

/-- Witness for C4 (amended): the two-domain chain laid out with the
top-level arguments satisfies the structure-unchanged hypothesis (computed),
and the single-domain chain consists of Domains only; the theorem then gives
idempotence for the former and structural stability for the latter. -/
theorem layout_idempotent_of_no_gap_insertion_witness :
    (erase (layout (STree.chain [STree.domain, STree.domain]) none true 10
        true) = STree.chain [STree.domain, STree.domain]) ∧
    (∀ x ∈ ([STree.domain] : List STree), x = STree.domain) ∧
    (layout (erase (layout (STree.chain [STree.domain, STree.domain]) none
        true 10 true)) none true 10 true =
      layout (STree.chain [STree.domain, STree.domain]) none true 10 true ∧
    erase (layout (STree.chain [STree.domain]) none true 10 true) =
      STree.chain [STree.domain]) := by
  have h : erase (layout (STree.chain [STree.domain, STree.domain]) none true
      10 true) = STree.chain [STree.domain, STree.domain] := by
    rw [layout]
    simp [circularOverride, effectiveWithin, insertGaps, interGaps, isDomainS,
      layoutList, layout, place, setLoc, erase, eraseList, needs_circle_fix,
      fixA]
  have hdom : ∀ x ∈ ([STree.domain] : List STree), x = STree.domain := by
    simp
  exact ⟨h, hdom, layout_idempotent_of_no_gap_insertion _ [STree.domain] none
    true 10 true h hdom⟩

/-! ### Gap insertion positions (C5) -/

/-- Transcribed from the spec's wording of the gap-insertion rule, for
comparison with the code's `insertGaps`: scan adjacent child pairs and insert
one synthetic Gap between any two children that are both not Domain; also a
leading Gap if the first child is not a Domain, and a trailing Gap if the
last child is not a Domain (suppressed when `omit_end_gap` is set). -/
def specInsert (omit_end_gap : Bool) (l : List STree) : List STree :=
  match l with
  | [] => []
  | x :: xs =>
      (if isDomainS x then [] else [STree.gap]) ++
      (x :: (((x :: xs).zip xs).map fun p =>
        (if !isDomainS p.1 && !isDomainS p.2 then [STree.gap] else []) ++
          [p.2]).flatten) ++
      (match (x :: xs).getLast? with
       | some z => if !isDomainS z && !omit_end_gap then [STree.gap] else []
       | none => [])

theorem interGaps_eq_spec (omit_end_gap : Bool) (x : STree) (xs : List STree) :
    interGaps omit_end_gap (x :: xs) =
      (x :: (((x :: xs).zip xs).map fun p =>
        (if !isDomainS p.1 && !isDomainS p.2 then [STree.gap] else []) ++
          [p.2]).flatten) ++
      (match (x :: xs).getLast? with
       | some z => if !isDomainS z && !omit_end_gap then [STree.gap] else []
       | none => []) := by
  induction xs generalizing x with
  | nil => simp [interGaps]
  | cons y rest ih =>
    rw [interGaps, ih y]
    simp [List.zip]

/-- The gap-insertion pass of the code coincides with the spec's description
of it. -/
theorem insertGaps_eq_specInsert (omit_end_gap : Bool) (l : List STree) :
    insertGaps omit_end_gap l = specInsert omit_end_gap l := by
  cases l with
  | nil => rfl
  | cons x xs =>
    show (if isDomainS x then [] else [STree.gap]) ++
      interGaps omit_end_gap (x :: xs) = _
    rw [interGaps_eq_spec, specInsert]
    simp [List.append_assoc]

theorem kindA_layout (x : STree) (circle_radius : Option ℝ) (lc : Bool)
    (hg : ℝ) (oe : Bool) : kindA (layout x circle_radius lc hg oe) = kindS x := by
  cases x with
  | gap => rw [layout]; rfl
  | domain => rw [layout]; rfl
  | hairpin inner => rw [layout]; rfl
  | split l r => cases l <;> cases r <;> (rw [layout]; rfl)
  | chain w => rw [layout]; rfl

theorem layoutList_map_kindS (l : List STree) (r : Option ℝ) :
    (layoutList l r).map kindA = l.map kindS := by
  induction l with
  | nil => rw [layoutList]; rfl
  | cons x xs ih => rw [layoutList]; simp [kindA_layout, ih]

theorem effectiveWithin_circularOverride (within : List STree) (lc oe : Bool) :
    effectiveWithin (circularOverride within lc) oe within =
      if lc && decide (1 < within.length) then insertGaps oe within
      else within := by
  match within with
  | [] => simp [effectiveWithin, circularOverride]
  | [x] => simp [effectiveWithin, circularOverride]
  | x :: y :: rest => simp [effectiveWithin, circularOverride]

/-- C5: For every Chain laid out circularly with more than one child: exactly
one Gap node is inserted between each adjacent pair of children that are both
not Domain; a leading Gap is inserted if and only if the first child is not a
Domain; a trailing Gap is inserted if and only if the last child is not a
Domain and omit_end_gap is not set; and no Gap is ever inserted adjacent to a
Domain child.  No Gaps are inserted when the chain is laid out straight or
has one child.  Stated by exhibiting the laid-out children's node kinds as
exactly those of the spec-described insertion (`specInsert`) in the circular
multi-child case, and those of the original children otherwise. -/
theorem chain_gap_insertion (within : List STree) (circle_radius : Option ℝ)
    (layout_circular : Bool) (hidden_gap : ℝ) (omit_end_gap : Bool) :
    ∃ kids e,
      layout (STree.chain within) circle_radius layout_circular hidden_gap
          omit_end_gap = ATree.chain kids Transformation.idT e ∧
      kids.map kindA =
        (if layout_circular && decide (1 < within.length) then
          specInsert omit_end_gap within
        else within).map kindS := by
  rw [layout]
  refine ⟨_, _, rfl, ?_⟩
  rw [place_map_kindA, layoutList_map_kindS, effectiveWithin_circularOverride,
    insertGaps_eq_specInsert]

/-! ### The circular radius (C6) -/

/-- Evidence in a laid-out node that it was laid out with the given radius:
`Gap`/`Domain` store it in `circle_radius`; `Hairpin`/`SplitComplex` compute
their end transform from it by the chord formula; a `Chain` child ignores the
radius it is passed. -/
def usedR : ATree → Option ℝ → Prop
  | .gap g, ρ => g.circle_radius = ρ
  | .domain d, ρ => d.circle_radius = ρ
  | .hairpin _ _ _ _ endT, ρ => endT = chordEnd DEFAULT_BOUND_GAP ρ
  | .split _ _ _ _ _ endT, ρ => endT = chordEnd DEFAULT_BOUND_GAP ρ
  | .chain _ _ _, _ => True

theorem arcNode_circle_radius (len : ℝ) (ρ : Option ℝ) :
    (arcNode len ρ).circle_radius = ρ := by
  cases ρ with
  | none => rfl
  | some r => by_cases h : r = 0 <;> simp [arcNode, h]

theorem usedR_setLoc (a : ATree) (t : Transformation) (ρ : Option ℝ) :
    usedR (setLoc a t) ρ ↔ usedR a ρ := by
  cases a <;> rfl

theorem usedR_layout (x : STree) (ρ : Option ℝ) (lc : Bool) (hg : ℝ)
    (oe : Bool) : usedR (layout x ρ lc hg oe) ρ := by
  cases x with
  | gap => rw [layout]; exact arcNode_circle_radius _ _
  | domain => rw [layout]; exact arcNode_circle_radius _ _
  | hairpin inner => rw [layout]; exact rfl
  | split l r => cases l <;> cases r <;> (rw [layout]; exact rfl)
  | chain w => rw [layout]; exact trivial

theorem layoutList_usedR (l : List STree) (ρ : Option ℝ) :
    ∀ a ∈ layoutList l ρ, usedR a ρ := by
  induction l with
  | nil => rw [layoutList]; intro a ha; cases ha
  | cons x xs ih =>
    rw [layoutList]
    intro a ha
    rcases List.mem_cons.mp ha with h | h
    · subst h; exact usedR_layout x ρ true DEFAULT_BOUND_GAP false
    · exact ih a h

theorem place_usedR (cur : Transformation) (l : List ATree) (ρ : Option ℝ)
    (h : ∀ a ∈ l, usedR a ρ) : ∀ a ∈ (place cur l).1, usedR a ρ := by
  induction l generalizing cur with
  | nil => intro a ha; cases ha
  | cons b rest ih =>
    intro a ha
    simp only [place] at ha
    rcases List.mem_cons.mp ha with h2 | h2
    · subst h2
      exact (usedR_setLoc _ _ _).mpr (h b (List.mem_cons_self _ _))
    · exact ih _ (fun c hc => h c (List.mem_cons_of_mem _ hc)) a h2

/-- C6: For every Chain laid out circularly, the radius used for all children
equals (Σ child.start_to_end() + hidden_gap) / 2π, where the sum is over the
children after gap insertion and start_to_end() returns: the literal length
for a Domain, the fixed bound-gap constant for a Hairpin or SplitComplex, the
fixed spacer length for a Gap, and a fixed constant for a Chain.  (The
hypotheses exclude the degenerate single-uncurvable-child case, where the
chain is forced straight.) -/
theorem chain_radius_formula (within : List STree) (circle_radius : Option ℝ)
    (layout_circular : Bool) (hidden_gap : ℝ) (omit_end_gap : Bool)
    (h1 : layout_circular = true)
    (h2 : ∀ x, within = [x] → needs_circle_fix x = false) :
    ∃ kids e,
      layout (STree.chain within) circle_radius layout_circular hidden_gap
          omit_end_gap = ATree.chain kids Transformation.idT e ∧
      ∀ a ∈ kids, usedR a (some
        ((((if 1 < within.length then insertGaps omit_end_gap within
            else within).map start_to_end).sum + hidden_gap) /
          (2 * Real.pi))) := by
  subst h1
  have hco : circularOverride within true = true := by
    cases within with
    | nil => rfl
    | cons x xs =>
      cases xs with
      | nil => simp [circularOverride, h2 x rfl]
      | cons y rest => rfl
  have hrad : calculate_inner_radius (effectiveWithin true omit_end_gap within)
      hidden_gap =
      (((if 1 < within.length then insertGaps omit_end_gap within
          else within).map start_to_end).sum + hidden_gap) / (2 * Real.pi) := by
    by_cases hl : 1 < within.length <;>
      simp [effectiveWithin, hl, calculate_inner_radius]
  rw [layout]
  simp only [hco, if_true, hrad]
  refine ⟨_, _, rfl, ?_⟩
  exact place_usedR _ _ _ (layoutList_usedR _ _)

/-- Witness for C6 at the two-domain chain laid out circularly with hidden
gap 5. -/
theorem chain_radius_formula_witness :
    ∃ kids e,
      layout (STree.chain [STree.domain, STree.domain]) none true 5 false =
        ATree.chain kids Transformation.idT e ∧
      ∀ a ∈ kids, usedR a (some
        ((((if 1 < ([STree.domain, STree.domain] : List STree).length then
            insertGaps false [STree.domain, STree.domain]
            else [STree.domain, STree.domain]).map start_to_end).sum + 5) /
          (2 * Real.pi))) :=
  chain_radius_formula [STree.domain, STree.domain] none true 5 false rfl
    (by simp)

/-! ### The top-level entry (C7) -/

/-- `layout_geometry` (lines 486-491): lay the root out with
`layout(None, omit_end_gap=True, hidden_gap=2*DEFAULT_BOUND_GAP)`; the
`layout_circular` parameter takes its default `True`.  The subsequent
`set_as_start`/`set_as_end` boundary tagging does not touch any transform and
is not modelled. -/
def layout_geometry (t : STree) : ATree :=
  layout t none true (2 * DEFAULT_BOUND_GAP) true

theorem compose_idT_left (t : Transformation) :
    Transformation.compose Transformation.idT t = t := by
  unfold Transformation.compose Transformation.idT Position.translate
    Position.rotate
  ext <;> simp

/-- Arc endpoints on a common circle compose additively in the angle. -/
theorem compose_calculate_end_on_circle (r a b : ℝ) :
    Transformation.compose (calculate_end_on_circle r a)
        (calculate_end_on_circle r b) =
      calculate_end_on_circle r (a + b) := by
  unfold Transformation.compose calculate_end_on_circle Position.translate
    Position.rotate
  ext
  · simp only [Real.sin_add]
    ring
  · simp only [Real.cos_add]
    ring
  · rfl

/-- The chord length of an arc endpoint: for a nonnegative radius, the norm
of the translation is `2 r |sin(θ/2)|`. -/
theorem norm_calculate_end_on_circle (r θ : ℝ) (hr : 0 ≤ r) :
    Position.norm (calculate_end_on_circle r θ).translation =
      2 * r * |Real.sin (θ / 2)| := by
  unfold Position.norm calculate_end_on_circle
  have h : (r * Real.sin θ) ^ 2 + (r * (1 - Real.cos θ)) ^ 2 =
      (2 * r) ^ 2 * ((1 - Real.cos θ) / 2) := by
    nlinarith [Real.sin_sq_add_cos_sq θ]
  rw [h, Real.sqrt_mul (by positivity), Real.sqrt_sq (by positivity),
    ← Real.abs_sin_half]

/-- The end transform of the three-domain chain laid out through the
top-level entry: each domain subtends 5π/8 on the circle of radius 80/π, so
the chain's end transform is the arc endpoint at total angle 15π/8. -/
theorem endOf_three_domain_geometry :
    endOf (layout_geometry (STree.chain [STree.domain, STree.domain,
        STree.domain])) =
      calculate_end_on_circle (80 / Real.pi) (15 * Real.pi / 8) := by
  have hpi := Real.pi_pos
  have hr : calculate_inner_radius [STree.domain, STree.domain, STree.domain]
      (2 * DEFAULT_BOUND_GAP) = 80 / Real.pi := by
    simp [calculate_inner_radius, start_to_end, DEFAULT_DOMAIN_LENGTH,
      DEFAULT_BOUND_GAP]
    field_simp
    ring
  have hr0 : (80 : ℝ) / Real.pi ≠ 0 := by positivity
  unfold layout_geometry
  rw [endOf_layout_chain]
  norm_num [circularOverride, effectiveWithin, insertGaps, interGaps,
    isDomainS]
  rw [hr]
  rw [layoutList, layoutList, layoutList, layoutList]
  rw [show layout STree.domain (some (80 / Real.pi)) true DEFAULT_BOUND_GAP
      false = ATree.domain (arcNode DEFAULT_DOMAIN_LENGTH
        (some (80 / Real.pi))) from by rw [layout]]
  simp only [List.map_cons, List.map_nil, List.foldl_cons, List.foldl_nil]
  rw [show endOf (ATree.domain (arcNode DEFAULT_DOMAIN_LENGTH
      (some (80 / Real.pi)))) = calculate_end_on_circle (80 / Real.pi)
        (DEFAULT_DOMAIN_LENGTH / (80 / Real.pi)) from by
    simp [endOf, arcNode, hr0]]
  rw [compose_idT_left, compose_calculate_end_on_circle,
    compose_calculate_end_on_circle]
  have hθ : DEFAULT_DOMAIN_LENGTH / (80 / Real.pi) +
      DEFAULT_DOMAIN_LENGTH / (80 / Real.pi) +
      DEFAULT_DOMAIN_LENGTH / (80 / Real.pi) = 15 * Real.pi / 8 := by
    unfold DEFAULT_DOMAIN_LENGTH
    field_simp
    ring
  rw [hθ]

/-- C7 (counterexample): for the three-domain chain laid out through the
top-level entry, the overall end_transform.translation norm is below 10 —
far from 3 × the default domain length (150) — because the top-level chain is
laid out circularly, wrapping nearly the whole estimated circle. -/
theorem three_domain_chain_norm_counterexample :
    Position.norm (endOf (layout_geometry (STree.chain [STree.domain,
        STree.domain, STree.domain]))).translation < 10 ∧
      (10 : ℝ) < 3 * DEFAULT_DOMAIN_LENGTH := by
  have hpi := Real.pi_pos
  constructor
  · rw [endOf_three_domain_geometry,
      norm_calculate_end_on_circle _ _ (by positivity)]
    have h1 : 15 * Real.pi / 8 / 2 = Real.pi - Real.pi / 16 := by ring
    have h2 : |Real.sin (15 * Real.pi / 8 / 2)| = Real.sin (Real.pi / 16) := by
      rw [h1, Real.sin_pi_sub, abs_of_nonneg]
      exact Real.sin_nonneg_of_nonneg_of_le_pi (by positivity) (by linarith)
    rw [h2]
    have h3 : Real.sin (Real.pi / 16) < Real.pi / 16 :=
      Real.sin_lt (by positivity)
    calc 2 * (80 / Real.pi) * Real.sin (Real.pi / 16)
        < 2 * (80 / Real.pi) * (Real.pi / 16) := by
          apply mul_lt_mul_of_pos_left h3
          positivity
      _ = 10 := by field_simp; norm_num
  · unfold DEFAULT_DOMAIN_LENGTH
    norm_num

/-- C7 (amended): for the three-domain chain laid out through the top-level
entry, the overall end_transform.translation norm equals
(160/π)·sin(π/16) ≈ 9.94 — approximately the hidden gap (the chord left
uncovered on the estimated circle), not 3 × the domain length. -/
theorem three_domain_chain_end_norm :
    Position.norm (endOf (layout_geometry (STree.chain [STree.domain,
        STree.domain, STree.domain]))).translation =
      160 / Real.pi * Real.sin (Real.pi / 16) := by
  have hpi := Real.pi_pos
  rw [endOf_three_domain_geometry,
    norm_calculate_end_on_circle _ _ (by positivity)]
  have h1 : 15 * Real.pi / 8 / 2 = Real.pi - Real.pi / 16 := by ring
  have h2 : |Real.sin (15 * Real.pi / 8 / 2)| = Real.sin (Real.pi / 16) := by
    rw [h1, Real.sin_pi_sub, abs_of_nonneg]
    exact Real.sin_nonneg_of_nonneg_of_le_pi (by positivity) (by linarith)
  rw [h2]
  ring

/-! ### Building the geometry tree (C9)

The structural model (src/complex.py): `Domain{name}`,
`Hairpin{pre, inner: Chain, post}`, `SplitComplex{pre, left: Chain?,
right: Chain?, post}`, `Chain{within}`, and the `Clover` variant that the
tree-builder does not recognize.  The inner/branch chains are represented by
their child lists, as `complex.Chain` is a list wrapper. -/
inductive CNode where
  | domain (name : String)
  | hairpin (pre : String) (inner : List CNode) (post : String)
  | split (pre : String) (left : Option (List CNode))
      (right : Option (List CNode)) (post : String)
  | chain (within : List CNode)
  | clover (within : List CNode)

/-- The geometry-node kind `create_geometry` produces for each recognized
structural variant (`Clover` is unrecognized; the value for it is irrelevant
and never used). -/
def ckind : CNode → Kind
  | .domain _ => .domain
  | .hairpin _ _ _ => .hairpin
  | .split _ _ _ _ => .split
  | .chain _ => .chain
  | .clover _ => .gap

mutual

/-- `create_geometry(parent, node)` (lines 469-483): dispatch on the
structural variant, building the geometry node and — through the geometry
constructors — the geometry of all nested content; any other variant raises
`NotImplementedError`, modelled by `Except.error`. -/
def create_geometry : CNode → Except String STree
  | .domain _ => .ok .domain
  | .hairpin _ inner _ => do
      let ts ← createList inner
      .ok (.hairpin (.chain ts))
  | .split _ left right _ => do
      let l ← createOpt left
      let r ← createOpt right
      .ok (.split l r)
  | .chain within => do
      let ts ← createList within
      .ok (.chain ts)
  | .clover _ => .error "Unsupported geometry operation Clover"

/-- `Chain(parent, source.left) if source.left else None`. -/
def createOpt : Option (List CNode) → Except String (Option STree)
  | none => .ok none
  | some l => do
      let ts ← createList l
      .ok (some (.chain ts))

/-- The comprehension `[create_geometry(self, node) for node in
source.within]`. -/
def createList : List CNode → Except String (List STree)
  | [] => .ok []
  | x :: xs => do
      let t ← create_geometry x
      let ts ← createList xs
      .ok (t :: ts)

end

mutual

/-- No `Clover` variant occurs anywhere in the structural node. -/
def cloverFree : CNode → Bool
  | .domain _ => true
  | .hairpin _ inner _ => cloverFreeList inner
  | .split _ l r _ => cloverFreeOpt l && cloverFreeOpt r
  | .chain w => cloverFreeList w
  | .clover _ => false

def cloverFreeOpt : Option (List CNode) → Bool
  | none => true
  | some l => cloverFreeList l

def cloverFreeList : List CNode → Bool
  | [] => true
  | x :: xs => cloverFree x && cloverFreeList xs

end

mutual

theorem create_geometry_spec (n : CNode) :
    (cloverFree n = true → ∃ t, create_geometry n = .ok t ∧ kindS t = ckind n) ∧
    (cloverFree n = false → ∃ m, create_geometry n = .error m) := by
  cases n with
  | domain name =>
    exact ⟨fun _ => ⟨.domain, rfl, rfl⟩, fun h => by simp [cloverFree] at h⟩
  | hairpin pre inner post =>
    constructor
    · intro h
      obtain ⟨ts, hts⟩ := (createList_spec inner).1 h
      exact ⟨.hairpin (.chain ts), by simp [create_geometry, bind, Except.bind, hts], rfl⟩
    · intro h
      obtain ⟨m, hm⟩ := (createList_spec inner).2 h
      exact ⟨m, by simp [create_geometry, bind, Except.bind, hm]⟩
  | split pre l r post =>
    constructor
    · intro h
      simp only [cloverFree, Bool.and_eq_true] at h
      obtain ⟨tl, htl⟩ := (createOpt_spec l).1 h.1
      obtain ⟨tr, htr⟩ := (createOpt_spec r).1 h.2
      exact ⟨.split tl tr, by simp [create_geometry, bind, Except.bind, htl, htr], rfl⟩
    · intro h
      simp only [cloverFree, Bool.and_eq_false_iff] at h
      rcases h with h | h
      · obtain ⟨m, hm⟩ := (createOpt_spec l).2 h
        exact ⟨m, by simp [create_geometry, bind, Except.bind, hm]⟩
      · rcases hl : createOpt l with m | tl
        · exact ⟨m, by simp [create_geometry, bind, Except.bind, hl]⟩
        · obtain ⟨m, hm⟩ := (createOpt_spec r).2 h
          exact ⟨m, by simp [create_geometry, bind, Except.bind, hl, hm]⟩
  | chain w =>
    constructor
    · intro h
      obtain ⟨ts, hts⟩ := (createList_spec w).1 h
      exact ⟨.chain ts, by simp [create_geometry, bind, Except.bind, hts], rfl⟩
    · intro h
      obtain ⟨m, hm⟩ := (createList_spec w).2 h
      exact ⟨m, by simp [create_geometry, bind, Except.bind, hm]⟩
  | clover w =>
    exact ⟨fun h => by simp [cloverFree] at h, fun _ => ⟨_, rfl⟩⟩

theorem createOpt_spec (o : Option (List CNode)) :
    (cloverFreeOpt o = true → ∃ t, createOpt o = .ok t) ∧
    (cloverFreeOpt o = false → ∃ m, createOpt o = .error m) := by
  cases o with
  | none =>
    exact ⟨fun _ => ⟨none, rfl⟩, fun h => by simp [cloverFreeOpt] at h⟩
  | some l =>
    constructor
    · intro h
      obtain ⟨ts, hts⟩ := (createList_spec l).1 h
      exact ⟨some (.chain ts), by simp [createOpt, bind, Except.bind, hts]⟩
    · intro h
      obtain ⟨m, hm⟩ := (createList_spec l).2 h
      exact ⟨m, by simp [createOpt, bind, Except.bind, hm]⟩

theorem createList_spec (l : List CNode) :
    (cloverFreeList l = true → ∃ ts, createList l = .ok ts) ∧
    (cloverFreeList l = false → ∃ m, createList l = .error m) := by
  cases l with
  | nil =>
    exact ⟨fun _ => ⟨[], rfl⟩, fun h => by simp [cloverFreeList] at h⟩
  | cons x xs =>
    constructor
    · intro h
      simp only [cloverFreeList, Bool.and_eq_true] at h
      obtain ⟨t, ht⟩ := (create_geometry_spec x).1 h.1
      obtain ⟨ts, hts⟩ := (createList_spec xs).1 h.2
      exact ⟨t :: ts, by simp [createList, bind, Except.bind, ht.1, hts]⟩
    · intro h
      simp only [cloverFreeList, Bool.and_eq_false_iff] at h
      rcases h with h | h
      · obtain ⟨m, hm⟩ := (create_geometry_spec x).2 h
        exact ⟨m, by simp [createList, bind, Except.bind, hm]⟩
      · rcases hx : create_geometry x with m | t
        · exact ⟨m, by simp [createList, bind, Except.bind, hx]⟩
        · obtain ⟨m, hm⟩ := (createList_spec xs).2 h
          exact ⟨m, by simp [createList, bind, Except.bind, hx, hm]⟩

end

/-- C9: For every structural node given to the tree-builder that is not one
of the four recognized variants Domain, Hairpin, Chain, SplitComplex (for
example the Clover variant of the structural model), create_geometry raises
an error rather than silently ignoring the node; for each of the four
recognized variants (containing no Clover in their nested content) it returns
the corresponding Layout Tree node kind without raising. -/
theorem create_geometry_dispatch (n : CNode) :
    if cloverFree n then
      ∃ t, create_geometry n = .ok t ∧ kindS t = ckind n
    else ∃ m, create_geometry n = .error m := by
  by_cases h : cloverFree n = true
  · rw [if_pos h]
    exact (create_geometry_spec n).1 h
  · rw [if_neg h]
    exact (create_geometry_spec n).2 (Bool.not_eq_true _ ▸
      (Bool.eq_false_iff.mpr h))

/-- C10: For every Domain and every Gap, calling layout with a circle radius
of exactly 0.0 never divides by zero: a zero radius is falsy, so it is
treated the same as an absent radius, producing the straight-line
end_transform (translation (0, −length), rotation −π/2) and leaving
circle_theta unset; the arc computation length/radius is never evaluated when
the radius is 0. -/
theorem zero_radius_is_straight (lc : Bool) (hg : ℝ) (oe : Bool) :
    ctOf (layout STree.domain (some 0) lc hg oe) = none ∧
    endOf (layout STree.domain (some 0) lc hg oe) =
      Transformation.mk (Position.mk 0 (-DEFAULT_DOMAIN_LENGTH))
        (-(0.5 * Real.pi)) ∧
    endOf (layout STree.domain (some 0) lc hg oe) =
      endOf (layout STree.domain none lc hg oe) ∧
    ctOf (layout STree.gap (some 0) lc hg oe) = none ∧
    endOf (layout STree.gap (some 0) lc hg oe) =
      Transformation.mk (Position.mk 0 (-DEFAULT_SPACING_GAP))
        (-(0.5 * Real.pi)) ∧
    endOf (layout STree.gap (some 0) lc hg oe) =
      endOf (layout STree.gap none lc hg oe) := by
  rw [show layout STree.domain (some 0) lc hg oe =
      ATree.domain (arcNode DEFAULT_DOMAIN_LENGTH (some 0)) from by rw [layout]]
  rw [show layout STree.domain none lc hg oe =
      ATree.domain (arcNode DEFAULT_DOMAIN_LENGTH none) from by rw [layout]]
  rw [show layout STree.gap (some 0) lc hg oe =
      ATree.gap (arcNode DEFAULT_SPACING_GAP (some 0)) from by rw [layout]]
  rw [show layout STree.gap none lc hg oe =
      ATree.gap (arcNode DEFAULT_SPACING_GAP none) from by rw [layout]]
  simp [ctOf, endOf, arcNode, straightEnd]

end SvgGen
